import Mathlib

/-!
Verification of the kubeconfig merge / credential-rewrite / import-orchestration
logic of the aks-desktop repository, as a shallow embedding in Lean 4.

Sources embedded here:
  * `mergeKubeconfig`, `addAzKubeloginToKubeconfig`, `getExecutablePaths` and
    `registerAKSCluster` from the Electron main-process module
    (`src/app/scripts/after-pack.js`, second document);
  * `addAzKubeloginToKubeconfig` from the frontend Azure helper module
    (embedded below as `addAzKubeloginToKubeconfigFrontend`);
  * `handleImport` and `loadNamespaces` from the `ImportAKSProjects` component,
    and `discoverNamespaces` from its sibling variant.

YAML parsing and serialization are external to the embedded logic: a YAML text
is modelled by its parse outcome (parse failure, empty text, or a parsed
document).  JavaScript objects parsed from YAML are modelled by structures
whose optional fields conflate an absent key with a `null`-valued key (the
embedded code only ever distinguishes them through truthiness tests), and whose
remaining passthrough content is carried verbatim as association lists.
-/

/-- A record of one of the `clusters` / `contexts` / `users` arrays: a `name`
plus its remaining YAML payload, carried verbatim (the merge never inspects
it). -/
structure NamedRecord where
  name : String
  fields : List (String × String)
deriving DecidableEq

/-- A parsed kubeconfig document as read by `mergeKubeconfig`: the three named
arrays, the `current-context` string, and the remaining top-level passthrough
keys.  `none` models an absent (or `null`) key. -/
structure KubeConfig where
  clusters : Option (List NamedRecord) := none
  contexts : Option (List NamedRecord) := none
  users : Option (List NamedRecord) := none
  currentContext : Option String := none
  extra : List (String × String) := []
deriving DecidableEq

/-- Parse outcome of the `existingConfig` argument of `mergeKubeconfig`:
the empty string (falsy, parsed as `{}` by the source), a string whose
`yaml.parse` throws, or a parsed document. -/
inductive ExistingYaml where
  | empty
  | malformed
  | doc (cfg : KubeConfig)
deriving DecidableEq

/-- Parse outcome of the `newConfig` argument of `mergeKubeconfig`.  (A string
parsing to `null` would make the source throw a `TypeError` when the existing
document is non-empty; such inputs never reach the merge and are left out of
the model's domain.) -/
inductive IncomingYaml where
  | malformed
  | doc (cfg : KubeConfig)
deriving DecidableEq

/-- `Object.keys(existing).length === 0` on the modelled document. -/
def isEmptyConfig (c : KubeConfig) : Bool :=
  c.clusters.isNone && c.contexts.isNone && c.users.isNone &&
    c.currentContext.isNone && c.extra.isEmpty

/-- Truthiness of `cfg['current-context']`: present and not the empty
string. -/
def definesCurrentContext (c : KubeConfig) : Bool :=
  match c.currentContext with
  | some s => s != ""
  | none => false

/-- JavaScript `Array.prototype.findIndex`, with `-1` modelled as `none`. -/
def findIndex {α : Type} (p : α → Bool) : List α → Option Nat
  | [] => none
  | a :: as => if p a then some 0 else (findIndex p as).map (· + 1)

/-- One iteration of the merge loops of `mergeKubeconfig`: look up the
incoming record's name with `findIndex`; replace the found slot, else push. -/
def insertRecord (target : List NamedRecord) (rec : NamedRecord) : List NamedRecord :=
  match findIndex (fun c => c.name == rec.name) target with
  | some i => target.set i rec
  | none => target ++ [rec]

/-- A whole merge loop of `mergeKubeconfig` (`for (const cluster of
newCfg.clusters || []) ...`). -/
def mergeRecords (target incoming : List NamedRecord) : List NamedRecord :=
  incoming.foldl insertRecord target

/-- `mergeKubeconfig(existingConfig, newConfig)` from the main-process module:
parse the existing text (empty or unparseable gives `{}`), return the existing
document if the incoming text is unparseable, return the incoming document
verbatim if the existing document is empty, and otherwise merge the three
arrays name-by-name and overwrite `current-context` when the incoming document
defines a truthy one. -/
def mergeKubeconfig (existingConfig : ExistingYaml) (newConfig : IncomingYaml) : KubeConfig :=
  let existing : KubeConfig :=
    match existingConfig with
    | .empty => {}
    | .malformed => {}
    | .doc c => c
  match newConfig with
  | .malformed => existing
  | .doc newCfg =>
    if isEmptyConfig existing then newCfg
    else
      { existing with
        clusters := some (mergeRecords (existing.clusters.getD []) (newCfg.clusters.getD [])),
        contexts := some (mergeRecords (existing.contexts.getD []) (newCfg.contexts.getD [])),
        users := some (mergeRecords (existing.users.getD []) (newCfg.users.getD [])),
        currentContext :=
          if definesCurrentContext newCfg then newCfg.currentContext
          else existing.currentContext }

/-- From the spec's words: "for each incoming record, find an existing record
with the same `name`; replace in place if found, else append". -/
def replaceOrAppend : List NamedRecord → NamedRecord → List NamedRecord
  | [], rec => [rec]
  | t :: ts, rec => if t.name = rec.name then rec :: ts else t :: replaceOrAppend ts rec

/-- From the spec's words: the merged document described by C1.  Each target
array is the existing one (empty when absent) with every incoming record
replaced in place or appended; `current-context` is the incoming value when
the incoming document defines one, the existing value otherwise; the existing
document's passthrough keys are kept. -/
def specMergeDocs (a b : KubeConfig) : KubeConfig :=
  { a with
    clusters := some ((b.clusters.getD []).foldl replaceOrAppend (a.clusters.getD [])),
    contexts := some ((b.contexts.getD []).foldl replaceOrAppend (a.contexts.getD [])),
    users := some ((b.users.getD []).foldl replaceOrAppend (a.users.getD [])),
    currentContext :=
      if definesCurrentContext b then b.currentContext else a.currentContext }

/-- The names of an array's records, in order. -/
def namesOf (t : List NamedRecord) : List String :=
  t.map (fun r => r.name)

/-- First record of a given name (`Array.prototype.find` by name). -/
def lookupByName (t : List NamedRecord) (n : String) : Option NamedRecord :=
  t.find? (fun c => c.name == n)

/-- Name-uniqueness invariant of a document: no two records of any of the
three arrays share a `name`. -/
def docNamesUnique (c : KubeConfig) : Prop :=
  (namesOf (c.clusters.getD [])).Nodup ∧
  (namesOf (c.contexts.getD [])).Nodup ∧
  (namesOf (c.users.getD [])).Nodup

instance (c : KubeConfig) : Decidable (docNamesUnique c) := by
  unfold docNamesUnique; infer_instance

-- ===== Lemmas about the merge loop =====

theorem insertRecord_eq_replaceOrAppend (t : List NamedRecord) (rec : NamedRecord) :
    insertRecord t rec = replaceOrAppend t rec := by
  induction t with
  | nil => rfl
  | cons a as ih =>
    by_cases h : a.name = rec.name
    · simp [insertRecord, findIndex, replaceOrAppend, h]
    · have hb : (a.name == rec.name) = false := by simp [h]
      simp only [insertRecord, findIndex, hb, if_false, replaceOrAppend, if_neg h]
      cases hfi : findIndex (fun c => c.name == rec.name) as with
      | none =>
        simp only [insertRecord, hfi] at ih
        simp [Option.map_none, hfi, ih]
      | some i =>
        simp only [insertRecord, hfi] at ih
        simp [hfi, List.set, ih]

theorem foldl_insertRecord_eq (incoming : List NamedRecord) :
    ∀ target : List NamedRecord,
      incoming.foldl insertRecord target = incoming.foldl replaceOrAppend target := by
  induction incoming with
  | nil => intro t; rfl
  | cons b bs ih =>
    intro t
    simp only [List.foldl_cons, insertRecord_eq_replaceOrAppend]
    exact ih _

theorem mergeRecords_eq_foldl_replaceOrAppend (target incoming : List NamedRecord) :
    mergeRecords target incoming = incoming.foldl replaceOrAppend target :=
  foldl_insertRecord_eq incoming target


theorem namesOf_nil : namesOf [] = [] := rfl

theorem namesOf_cons (a : NamedRecord) (as : List NamedRecord) :
    namesOf (a :: as) = a.name :: namesOf as := rfl

theorem lookupByName_nil (n : String) : lookupByName [] n = none := rfl

theorem lookupByName_cons (a : NamedRecord) (as : List NamedRecord) (n : String) :
    lookupByName (a :: as) n = if a.name = n then some a else lookupByName as n := by
  unfold lookupByName
  by_cases h : a.name = n
  · rw [List.find?_cons_of_pos _ (by simp [h]), if_pos h]
  · rw [List.find?_cons_of_neg _ (by simp [h]), if_neg h]

theorem lookupByName_replaceOrAppend_self (t : List NamedRecord) (rec : NamedRecord) :
    lookupByName (replaceOrAppend t rec) rec.name = some rec := by
  induction t with
  | nil => simp [replaceOrAppend, lookupByName_cons]
  | cons a as ih =>
    by_cases h : a.name = rec.name
    · simp [replaceOrAppend, h, lookupByName_cons]
    · simp only [replaceOrAppend, if_neg h, lookupByName_cons, ih]

theorem lookupByName_replaceOrAppend_other (t : List NamedRecord) (rec : NamedRecord)
    (n : String) (hn : rec.name ≠ n) :
    lookupByName (replaceOrAppend t rec) n = lookupByName t n := by
  induction t with
  | nil => simp [replaceOrAppend, lookupByName_cons, lookupByName_nil, hn]
  | cons a as ih =>
    by_cases h : a.name = rec.name
    · have han : a.name ≠ n := fun he => hn (h ▸ he)
      simp [replaceOrAppend, h, lookupByName_cons, hn, han]
    · simp only [replaceOrAppend, if_neg h, lookupByName_cons, ih]

theorem replaceOrAppend_of_lookup (t : List NamedRecord) (rec : NamedRecord)
    (h : lookupByName t rec.name = some rec) :
    replaceOrAppend t rec = t := by
  induction t with
  | nil => rw [lookupByName_nil] at h; exact absurd h (by simp)
  | cons a as ih =>
    rw [lookupByName_cons] at h
    by_cases ha : a.name = rec.name
    · rw [if_pos ha] at h
      have : a = rec := by injection h
      simp [replaceOrAppend, ha, this]
    · rw [if_neg ha] at h
      simp [replaceOrAppend, ha, ih h]

theorem lookupByName_foldl_stable (incoming : List NamedRecord) :
    ∀ (t : List NamedRecord) (n : String), n ∉ namesOf incoming →
      lookupByName (incoming.foldl replaceOrAppend t) n = lookupByName t n := by
  induction incoming with
  | nil => intro t n _; rfl
  | cons b bs ih =>
    intro t n hn
    rw [namesOf_cons] at hn
    have hb : b.name ≠ n := fun h => hn (by rw [h]; exact List.mem_cons_self _ _)
    have hbs : n ∉ namesOf bs := fun h => hn (List.mem_cons_of_mem _ h)
    simp only [List.foldl_cons]
    rw [ih _ n hbs, lookupByName_replaceOrAppend_other _ _ _ hb]

theorem namesOf_replaceOrAppend_mem (t : List NamedRecord) (rec : NamedRecord)
    (h : rec.name ∈ namesOf t) :
    namesOf (replaceOrAppend t rec) = namesOf t := by
  induction t with
  | nil => exact absurd h (by simp [namesOf_nil])
  | cons a as ih =>
    by_cases ha : a.name = rec.name
    · simp [replaceOrAppend, ha, namesOf_cons]
    · rw [namesOf_cons] at h
      have h' : rec.name ∈ namesOf as := by
        cases List.mem_cons.mp h with
        | inl h1 => exact absurd h1.symm ha
        | inr h2 => exact h2
      simp only [replaceOrAppend, if_neg ha, namesOf_cons, ih h']

theorem namesOf_replaceOrAppend_not_mem (t : List NamedRecord) (rec : NamedRecord)
    (h : rec.name ∉ namesOf t) :
    namesOf (replaceOrAppend t rec) = namesOf t ++ [rec.name] := by
  induction t with
  | nil => simp [replaceOrAppend, namesOf_cons, namesOf_nil]
  | cons a as ih =>
    rw [namesOf_cons] at h
    have ha : a.name ≠ rec.name := fun he => h (by rw [he]; exact List.mem_cons_self _ _)
    have h' : rec.name ∉ namesOf as := fun hm => h (List.mem_cons_of_mem _ hm)
    simp only [replaceOrAppend, if_neg ha, namesOf_cons, ih h', List.cons_append]

theorem nodup_namesOf_replaceOrAppend (t : List NamedRecord) (rec : NamedRecord)
    (h : (namesOf t).Nodup) : (namesOf (replaceOrAppend t rec)).Nodup := by
  by_cases hm : rec.name ∈ namesOf t
  · rw [namesOf_replaceOrAppend_mem t rec hm]; exact h
  · rw [namesOf_replaceOrAppend_not_mem t rec hm]
    refine List.nodup_append.mpr ⟨h, List.nodup_singleton _, ?_⟩
    intro x hx hx'
    rw [List.mem_singleton] at hx'
    exact hm (hx' ▸ hx)

theorem nodup_namesOf_foldl (incoming : List NamedRecord) :
    ∀ t : List NamedRecord, (namesOf t).Nodup →
      (namesOf (incoming.foldl replaceOrAppend t)).Nodup := by
  induction incoming with
  | nil => intro t h; exact h
  | cons b bs ih =>
    intro t h
    simp only [List.foldl_cons]
    exact ih _ (nodup_namesOf_replaceOrAppend t b h)

theorem mem_namesOf_replaceOrAppend (t : List NamedRecord) (r : NamedRecord)
    (n : String) (h : n ∈ namesOf t) : n ∈ namesOf (replaceOrAppend t r) := by
  by_cases hm : r.name ∈ namesOf t
  · rw [namesOf_replaceOrAppend_mem t r hm]; exact h
  · rw [namesOf_replaceOrAppend_not_mem t r hm]; exact List.mem_append_left _ h

theorem replaceOrAppend_same_name (t : List NamedRecord) (r b : NamedRecord)
    (h : b.name = r.name) :
    replaceOrAppend (replaceOrAppend t r) b = replaceOrAppend t b := by
  induction t with
  | nil => simp [replaceOrAppend, h]
  | cons a as ih =>
    by_cases ha : a.name = r.name
    · simp [replaceOrAppend, ha, h]
    · have hab : a.name ≠ b.name := fun he => ha (h ▸ he)
      simp [replaceOrAppend, ha, hab, ih]

theorem replaceOrAppend_comm (t : List NamedRecord) (r b : NamedRecord)
    (hmem : r.name ∈ namesOf t) (hne : b.name ≠ r.name) :
    replaceOrAppend (replaceOrAppend t r) b = replaceOrAppend (replaceOrAppend t b) r := by
  induction t with
  | nil => exact absurd hmem (by simp [namesOf_nil])
  | cons a as ih =>
    by_cases har : a.name = r.name
    · have hab : a.name ≠ b.name := fun he => hne (by rw [← he, har])
      simp [replaceOrAppend, har, hab, Ne.symm hne]
    · by_cases hab : a.name = b.name
      · simp [replaceOrAppend, har, hab, hne]
      · have hmem2 : r.name ∈ namesOf as := by
          rw [namesOf_cons] at hmem
          cases List.mem_cons.mp hmem with
          | inl h1 => exact absurd h1.symm har
          | inr h2 => exact h2
        simp [replaceOrAppend, har, hab, ih hmem2]

theorem mem_namesOf_foldl (incoming : List NamedRecord) :
    ∀ (t : List NamedRecord) (n : String), n ∈ namesOf t →
      n ∈ namesOf (incoming.foldl replaceOrAppend t) := by
  induction incoming with
  | nil => intro t n h; exact h
  | cons b bs ih =>
    intro t n h
    simp only [List.foldl_cons]
    exact ih _ _ (mem_namesOf_replaceOrAppend t b n h)

theorem mem_namesOf_replaceOrAppend_self (t : List NamedRecord) (r : NamedRecord) :
    r.name ∈ namesOf (replaceOrAppend t r) := by
  by_cases hm : r.name ∈ namesOf t
  · rw [namesOf_replaceOrAppend_mem t r hm]; exact hm
  · rw [namesOf_replaceOrAppend_not_mem t r hm]
    exact List.mem_append_right _ (by simp)

theorem foldl_replaceOrAppend_absorb (incoming : List NamedRecord) :
    ∀ (t : List NamedRecord) (r : NamedRecord), r.name ∈ namesOf t →
      (∃ b ∈ incoming, b.name = r.name) →
      incoming.foldl replaceOrAppend (replaceOrAppend t r) =
        incoming.foldl replaceOrAppend t := by
  induction incoming with
  | nil => intro t r _ hex; exact absurd hex (by simp)
  | cons b bs ih =>
    intro t r hmem hex
    simp only [List.foldl_cons]
    by_cases hb : b.name = r.name
    · rw [replaceOrAppend_same_name t r b hb]
    · obtain ⟨b2, hb2, hb2name⟩ := hex
      have hb2bs : b2 ∈ bs := by
        cases List.mem_cons.mp hb2 with
        | inl h1 => exact absurd (h1 ▸ hb2name) hb
        | inr h2 => exact h2
      rw [replaceOrAppend_comm t r b hmem hb]
      exact ih (replaceOrAppend t b) r
        (mem_namesOf_replaceOrAppend t b r.name hmem) ⟨b2, hb2bs, hb2name⟩

theorem foldl_replaceOrAppend_idem (incoming : List NamedRecord) :
    ∀ t : List NamedRecord,
      (incoming.foldl replaceOrAppend (incoming.foldl replaceOrAppend t)) =
        incoming.foldl replaceOrAppend t := by
  induction incoming with
  | nil => intro t; rfl
  | cons b bs ih =>
    intro t
    simp only [List.foldl_cons]
    by_cases hex : ∃ b2 ∈ bs, b2.name = b.name
    · have hmem : b.name ∈ namesOf (bs.foldl replaceOrAppend (replaceOrAppend t b)) :=
        mem_namesOf_foldl bs _ _ (mem_namesOf_replaceOrAppend_self t b)
      rw [foldl_replaceOrAppend_absorb bs _ b hmem hex]
      exact ih (replaceOrAppend t b)
    · have hb2 : b.name ∉ namesOf bs := by
        intro hmem
        obtain ⟨b2, hb2, he⟩ := List.mem_map.mp (by simpa [namesOf] using hmem)
        exact hex ⟨b2, hb2, he⟩
      have h1 : lookupByName (bs.foldl replaceOrAppend (replaceOrAppend t b)) b.name = some b := by
        rw [lookupByName_foldl_stable bs _ _ hb2]
        exact lookupByName_replaceOrAppend_self t b
      rw [replaceOrAppend_of_lookup _ _ h1]
      exact ih (replaceOrAppend t b)

theorem mergeRecords_idem (target incoming : List NamedRecord) :
    mergeRecords (mergeRecords target incoming) incoming =
      mergeRecords target incoming := by
  simp only [mergeRecords_eq_foldl_replaceOrAppend]
  exact foldl_replaceOrAppend_idem incoming target

-- ===== Credential rewriter =====

/-- `process.platform` as the embedded code distinguishes it. -/
inductive OsPlatform where
  | win32
  | darwin
  | linux
deriving DecidableEq

/-- Separator inserted by `path.join` (normalization of `.`/`..` segments,
which the embedded calls never produce, is elided). -/
def pathSep : OsPlatform → String
  | .win32 => "\\"
  | _ => "/"

/-- `path.join` of the named segments. -/
def pathJoin (pf : OsPlatform) (parts : List String) : String :=
  String.intercalate (pathSep pf) parts

/-- `PATH` entry separator (`;` on Windows, `:` elsewhere). -/
def envPathSep : OsPlatform → String
  | .win32 => ";"
  | _ => ":"

/-- The platform directory name used under `external-tools/az-cli`. -/
def platformDirName : OsPlatform → String
  | .win32 => "win32"
  | .darwin => "darwin"
  | .linux => "linux"

/-- The fixed AAD server GUID of the main-process rewriter. -/
def aadServerId : String := "6dae42f8-4368-4678-94ff-3960e28e3630"

/-- The fixed AAD server GUID of the frontend rewriter. -/
def aadServerIdFrontend : String := "6dae42f8-4368-4678-94ff-3960e28e3960"

def clientAuthApiVersion : String := "client.authentication.k8s.io/v1beta1"

def serverIdArg : String := "--server-id"

def pathVarName : String := "PATH"

def azCliPathVarName : String := "AZ_CLI_PATH"

/-- Result of `getExecutablePaths`. -/
structure ExecutablePaths where
  pythonCmd : String
  azKubeloginPath : String
  azCliBinPath : String
  azCliCmd : String
deriving DecidableEq

/-- `getExecutablePaths(isDev, resourcesPath)` from the main-process module
(the `isDev` parameter is accepted and ignored, as in the source). -/
def getExecutablePaths (pf : OsPlatform) (isDev : Bool) (resourcesPath : String) :
    ExecutablePaths :=
  let externalToolsBinPath := pathJoin pf [resourcesPath, "external-tools", "bin"]
  match pf with
  | .win32 =>
    let azCliWindowsPath := pathJoin pf [resourcesPath, "external-tools", "az-cli", "win32"]
    { pythonCmd := pathJoin pf [azCliWindowsPath, "python.exe"],
      azKubeloginPath := pathJoin pf [externalToolsBinPath, "az-kubelogin.py"],
      azCliBinPath := pathJoin pf [azCliWindowsPath, "bin"],
      azCliCmd := pathJoin pf [azCliWindowsPath, "bin", "az.cmd"] }
  | _ =>
    let azCliBinPath := pathJoin pf [resourcesPath, "external-tools", "az-cli", platformDirName pf, "bin"]
    { pythonCmd := pathJoin pf [azCliBinPath, "python3"],
      azKubeloginPath := pathJoin pf [externalToolsBinPath, "az-kubelogin.py"],
      azCliBinPath := azCliBinPath,
      azCliCmd := pathJoin pf [azCliBinPath, "az"] }

/-- One `env` entry of an `exec` credential block. -/
structure ExecEnvVar where
  name : String
  value : String
deriving DecidableEq

/-- An `exec` credential descriptor. -/
structure ExecConfig where
  apiVersion : String
  command : String
  args : List String
  env : List ExecEnvVar
  provideClusterInfo : Bool
deriving DecidableEq

/-- The `user` sub-object of a kubeconfig user record: the six legacy
authentication fields the main-process rewriter deletes, the `exec`
descriptor, and any remaining payload carried verbatim. -/
structure UserAuth where
  authProvider : Option String := none
  token : Option String := none
  clientCertificate : Option String := none
  clientCertificateData : Option String := none
  clientKey : Option String := none
  clientKeyData : Option String := none
  exec : Option ExecConfig := none
  extra : List (String × String) := []
deriving DecidableEq

/-- One entry of the `users` array. -/
structure KubeUser where
  name : String
  user : Option UserAuth := none
deriving DecidableEq

/-- A kubeconfig document as seen by the credential rewriters: only the
`users` array is inspected; everything else passes through. -/
structure UsersConfig where
  users : Option (List KubeUser) := none
  extra : List (String × String) := []
deriving DecidableEq

/-- Parse outcome of the rewriters' input string, keeping hold of the raw
text (which both rewriters return verbatim on parse failure). `nullish`
models a text that parses to a falsy value such as `null`. -/
inductive KubeYamlText where
  | malformed (raw : String)
  | nullish (raw : String)
  | doc (raw : String) (cfg : UsersConfig)
deriving DecidableEq

/-- Outcome of a rewriter: the untouched input string, or the transformed
document (serialized back to YAML by the source; serialization is external
to the model). -/
inductive RewriteResult where
  | original (raw : String)
  | rewritten (cfg : UsersConfig)
deriving DecidableEq

/-- The `exec` block installed by the main-process rewriter. -/
def mainExecBlock (pf : OsPlatform) (p : ExecutablePaths) (envPATH : String) : ExecConfig :=
  { apiVersion := clientAuthApiVersion,
    command := p.pythonCmd,
    args := [p.azKubeloginPath, serverIdArg, aadServerId],
    env := [⟨pathVarName, p.azCliBinPath ++ envPathSep pf ++ envPATH⟩,
            ⟨azCliPathVarName, p.azCliCmd⟩],
    provideClusterInfo := false }

/-- Loop body of the main-process `addAzKubeloginToKubeconfig`: skip records
without a `user` sub-object; delete the six legacy fields and set `exec`. -/
def rewriteUser (pf : OsPlatform) (p : ExecutablePaths) (envPATH : String)
    (u : KubeUser) : KubeUser :=
  match u.user with
  | none => u
  | some a =>
    { u with
      user := some
        { authProvider := none, token := none,
          clientCertificate := none, clientCertificateData := none,
          clientKey := none, clientKeyData := none,
          exec := some (mainExecBlock pf p envPATH),
          extra := a.extra } }

/-- `addAzKubeloginToKubeconfig(kubeconfigYaml, isDev, resourcesPath)` from
the main-process module.  `envPATH` models `process.env.PATH || ''`. -/
def addAzKubeloginToKubeconfig (input : KubeYamlText) (pf : OsPlatform)
    (isDev : Bool) (resourcesPath : String) (envPATH : String) : RewriteResult :=
  match input with
  | .malformed raw => .original raw
  | .nullish raw => .original raw
  | .doc raw cfg =>
    match cfg.users with
    | none => .original raw
    | some us =>
      let p := getExecutablePaths pf isDev resourcesPath
      .rewritten { cfg with users := some (us.map (rewriteUser pf p envPATH)) }

/-- Resolved environment of the frontend rewriter: the interpreter and helper
paths it computes from `__dirname`/`resourcesPath` (parameterized here), and
whether that resolution succeeds at all (`pathsOk = false` models the
`Resources path not available` throw, which its `catch` turns into returning
the input). -/
structure FrontendEnv where
  pathsOk : Bool
  pythonPath : String
  kubeloginPath : String
  externalToolsBinPath : String
  azCliBinPath : String
  platform : OsPlatform
  envPATH : String
deriving DecidableEq

/-- The `exec` block installed by the frontend rewriter (a single `PATH`
entry combining both tool directories). -/
def frontendExecBlock (e : FrontendEnv) : ExecConfig :=
  { apiVersion := clientAuthApiVersion,
    command := e.pythonPath,
    args := [e.kubeloginPath, serverIdArg, aadServerIdFrontend],
    env := [⟨pathVarName,
      e.externalToolsBinPath ++ envPathSep e.platform ++ e.azCliBinPath
        ++ envPathSep e.platform ++ e.envPATH⟩],
    provideClusterInfo := false }

/-- Loop body of the frontend `addAzKubeloginToKubeconfig`: sets `exec` on
records with a `user` sub-object; the legacy fields are left as they are. -/
def rewriteUserFrontend (e : FrontendEnv) (u : KubeUser) : KubeUser :=
  match u.user with
  | none => u
  | some a => { u with user := some { a with exec := some (frontendExecBlock e) } }

/-- `addAzKubeloginToKubeconfig(kubeconfigYaml)` from the frontend Azure
helper module (`js-yaml` based). -/
def addAzKubeloginToKubeconfigFrontend (input : KubeYamlText) (e : FrontendEnv) :
    RewriteResult :=
  match input with
  | .malformed raw => .original raw
  | .nullish raw => .original raw
  | .doc raw cfg =>
    match cfg.users with
    | none => .original raw
    | some us =>
      if e.pathsOk then
        .rewritten { cfg with users := some (us.map (rewriteUserFrontend e)) }
      else .original raw

-- ===== Import orchestrator =====

/-- A managed-namespace record as carried by the import component. -/
structure ManagedNamespace where
  name : String
  clusterName : String
  resourceGroup : String
  subscriptionId : String
deriving DecidableEq

/-- One row of the component's selection state. -/
structure ImportSelection where
  ns : ManagedNamespace
  projectName : String
  selected : Bool
  clusterMerged : Bool
deriving DecidableEq

/-- The argument tuple of one `registerAKSCluster(subscriptionId,
resourceGroup, clusterName, managedNamespace)` invocation. -/
structure RegCall where
  subscriptionId : String
  resourceGroup : String
  clusterName : String
  managedNamespace : String
deriving DecidableEq

/-- Outcome of awaiting one registration call: a `{success:true}` result, a
`{success:false, message}` result, or a thrown error (whose `.message` the
orchestrator's `catch` reads). -/
inductive RegOutcome where
  | ok (message : String)
  | fail (message : String)
  | thrown (message : String)
deriving DecidableEq

/-- One entry of the orchestrator's result list. -/
structure ImportResult where
  namespaceLabel : String
  success : Bool
  message : String
deriving DecidableEq

/-- The orchestrator's observable outcome: the result list and the ordered
trace of registration calls it issued. -/
structure ImportOutcome where
  results : List ImportResult
  calls : List RegCall
deriving DecidableEq

/-- A single-quote character, as used inside the source's messages. -/
def squote : String := "\x27"

def pipeStr : String := "|"

/-- The grouping key: `` `${clusterName}|${resourceGroup}|${subscriptionId}` ``. -/
def clusterKeyOf (n : ManagedNamespace) : String :=
  n.clusterName ++ pipeStr ++ n.resourceGroup ++ pipeStr ++ n.subscriptionId

/-- JavaScript `String.prototype.split` on a one-character separator, over
the character list of the string. -/
def jsSplit (sep : Char) : List Char → List (List Char)
  | [] => [[]]
  | c :: rest =>
    match jsSplit sep rest with
    | [] => [[]]
    | w :: ws => if c = sep then [] :: w :: ws else (c :: w) :: ws

/-- `const [clusterName, resourceGroup, subscriptionId] = clusterKey.split('|')`:
the first three components of the split key (the key always contains two
separators, so the fallback branch is unreachable). -/
def keyParts (key : String) : String × String × String :=
  match (jsSplit '|' key.data).map (fun cs => String.mk cs) with
  | c :: r :: s :: _ => (c, r, s)
  | _ => ("", "", "")

/-- Insertion into the `clusterMap`: push onto the existing group of the key,
else append a new group (JavaScript `Map` preserves insertion order). -/
def addToClusterMap (m : List (String × List ImportSelection)) (key : String)
    (item : ImportSelection) : List (String × List ImportSelection) :=
  match m with
  | [] => [(key, [item])]
  | (k, its) :: rest =>
    if k = key then (k, its ++ [item]) :: rest
    else (k, its) :: addToClusterMap rest key item

/-- The `clusterMap` grouping loop of `handleImport`. -/
def buildClusterMap (items : List ImportSelection) :
    List (String × List ImportSelection) :=
  items.foldl (fun m it => addToClusterMap m (clusterKeyOf it.ns) it) []

/-- Success message: `Project 'P' successfully imported from namespace 'N'`. -/
def okMessage (projectName nsName : String) : String :=
  "Project " ++ squote ++ projectName ++ squote ++
    " successfully imported from namespace " ++ squote ++ nsName ++ squote

/-- Result-list label: `` `${namespace.name} (${clusterName})` ``. -/
def resultLabel (clusterName nsName : String) : String :=
  nsName ++ " (" ++ clusterName ++ ")"

/-- Success entry pushed for one namespace of a registered group. -/
def okResult (clusterName : String) (it : ImportSelection) : ImportResult :=
  ⟨resultLabel clusterName it.ns.name, true, okMessage it.projectName it.ns.name⟩

/-- Failure entry pushed when the group's registration returned
`{success:false}`. -/
def failResult (clusterName : String) (it : ImportSelection) (m : String) : ImportResult :=
  ⟨resultLabel clusterName it.ns.name, false, "Failed to merge cluster: " ++ m⟩

/-- Failure entry pushed when the group's processing threw. -/
def thrownResult (clusterName : String) (it : ImportSelection) (m : String) : ImportResult :=
  ⟨resultLabel clusterName it.ns.name, false, m⟩

/-- The registration call issued for one group: the key's split parts plus
the first namespace of the group as the managed-namespace argument. -/
def groupCall (key : String) (first : ImportSelection) : RegCall :=
  match keyParts key with
  | (c, r, s) => ⟨s, r, c, first.ns.name⟩

/-- Body of the per-group loop of `handleImport`.  Progress reporting and the
`allowedNamespaces` settings write (whose stored JSON is assumed parseable)
are elided: they do not feed back into the results or the call trace. -/
def processGroup (register : RegCall → RegOutcome) (acc : ImportOutcome)
    (g : String × List ImportSelection) : ImportOutcome :=
  match g.2 with
  | [] => acc
  | first :: _ =>
    let clusterName := (keyParts g.1).1
    let call := groupCall g.1 first
    match register call with
    | .ok _ =>
      { results := acc.results ++ g.2.map (okResult clusterName),
        calls := acc.calls ++ [call] }
    | .fail m =>
      { results := acc.results ++ g.2.map (fun it => failResult clusterName it m),
        calls := acc.calls ++ [call] }
    | .thrown m =>
      { results := acc.results ++ g.2.map (fun it => thrownResult clusterName it m),
        calls := acc.calls ++ [call] }

/-- `handleImport` of the import component: filter the selected rows, return
early when none are selected, group by cluster key, and process the groups
sequentially, one registration call per group. -/
def handleImport (namespaces : List ImportSelection)
    (register : RegCall → RegOutcome) : ImportOutcome :=
  let selectedNamespaces := namespaces.filter (fun it => it.selected)
  if selectedNamespaces.isEmpty then ⟨[], []⟩
  else (buildClusterMap selectedNamespaces).foldl (processGroup register) ⟨[], []⟩

/-- The (clusterName, resourceGroup, subscriptionId) triple of a namespace. -/
def tripleOf (n : ManagedNamespace) : String × String × String :=
  (n.clusterName, n.resourceGroup, n.subscriptionId)

/-- First-occurrence deduplication, as produced by keyed grouping. -/
def dedupFO {α : Type} [DecidableEq α] (l : List α) : List α :=
  l.foldl (fun acc a => if a ∈ acc then acc else acc ++ [a]) []

/-- A string not containing the grouping separator. -/
def pipeFree (s : String) : Prop := '|' ∉ s.data

instance (s : String) : Decidable (pipeFree s) := by
  unfold pipeFree; infer_instance

/-- All three key fields of a namespace are separator-free. -/
def tripleKeysOk (n : ManagedNamespace) : Prop :=
  pipeFree n.clusterName ∧ pipeFree n.resourceGroup ∧ pipeFree n.subscriptionId

instance (n : ManagedNamespace) : Decidable (tripleKeysOk n) := by
  unfold tripleKeysOk; infer_instance

-- ===== Namespace discovery =====

def emptyStr : String := ""

def projectIdLabel : String := "headlamp.dev/project-id"

def projectManagedByLabel : String := "headlamp.dev/project-managed-by"

def projectManagedByAksDesktop : String := "aks-desktop"

/-- JavaScript property lookup on a labels object (modelled as the first
matching key of an association list). -/
def jsLookup (ls : List (String × String)) (key : String) : Option String :=
  (ls.find? (fun p => p.1 == key)).map (fun p => p.2)

/-- A candidate returned by `getManagedNamespacesForSubscription`. -/
structure NsCandidate where
  name : String
  clusterName : String
  resourceGroup : String
deriving DecidableEq

/-- One iteration of the discovery loop: fetch the candidate's details
(`none` models a thrown detail fetch, which the source logs and skips),
require a truthy project-id label and the exact managed-by marker, and drop
candidates whose cluster is already among the merged cluster names.
`details` returning labels models `details?.properties?.labels || {}`. -/
def discoverStep (mergedClusterNames : List String) (subscriptionId : String)
    (details : NsCandidate → Option (List (String × String)))
    (acc : List ImportSelection) (ns : NsCandidate) : List ImportSelection :=
  match details ns with
  | none => acc
  | some labels =>
    let hasProjectId := (jsLookup labels projectIdLabel).getD emptyStr != emptyStr
    let isManagedByAKSDesktop :=
      jsLookup labels projectManagedByLabel == some projectManagedByAksDesktop
    if hasProjectId && isManagedByAKSDesktop then
      let isClusterMerged := mergedClusterNames.contains ns.clusterName
      if !isClusterMerged then
        acc ++ [{ ns := ⟨ns.name, ns.clusterName, ns.resourceGroup, subscriptionId⟩,
                  projectName := (jsLookup labels projectIdLabel).getD emptyStr,
                  selected := true, clusterMerged := false }]
      else acc
    else acc

/-- `discoverNamespaces` of the label-checking import component. -/
def discoverNamespaces (mergedClusterNames : List String) (subscriptionId : String)
    (namespacesData : List NsCandidate)
    (details : NsCandidate → Option (List (String × String))) : List ImportSelection :=
  namespacesData.foldl (discoverStep mergedClusterNames subscriptionId details) []

/-- One record of the `az graph query` JSON output consumed by
`loadNamespaces` (the query itself filters server-side on the managed-by
label; whatever the service returns is modelled as given). -/
structure GraphRecord where
  name : String
  id : String
  resourceGroup : String
  subscriptionId : String
  labels : List (String × String)
deriving DecidableEq

def managedClustersPat : List Char := "managedClusters/".data

/-- One attempt of the regex `/managedClusters\x2f([^\x2f]+)/` at the head of
the character list: the literal pattern must be a prefix and at least one
non-slash character must follow. -/
def clusterNameAt (s : List Char) : Option (List Char) :=
  if managedClustersPat.isPrefixOf s then
    let run := (s.drop managedClustersPat.length).takeWhile (fun c => c ≠ '/')
    if run.isEmpty then none else some run
  else none

/-- Left-to-right regex search for the first match. -/
def getClusterNameAux : List Char → Option (List Char)
  | [] => none
  | c :: rest =>
    match clusterNameAt (c :: rest) with
    | some r => some r
    | none => getClusterNameAux rest

/-- `getClusterName` of `loadNamespaces`: first capture of the regex, or the
empty string when there is no match. -/
def getClusterName (id : String) : String :=
  match getClusterNameAux id.data with
  | some r => String.mk r
  | none => emptyStr

/-- `loadNamespaces` of the import component cited by the claims: every
record of the query result is mapped to a pre-selected row; the project-id
label is read (possibly absent) but not required, and no cluster is excluded
(`clusterMerged` is hard-coded `false`). -/
def loadNamespaces (queryResult : List GraphRecord) : List ImportSelection :=
  queryResult.map (fun n =>
    { projectName := (jsLookup n.labels projectIdLabel).getD emptyStr,
      clusterMerged := false,
      ns := { name := n.name, clusterName := getClusterName n.id,
              resourceGroup := n.resourceGroup, subscriptionId := n.subscriptionId },
      selected := true })

-- ===== Cluster registration (file lifecycle) =====

/-- Outcome of awaiting `executeCommandWithShellEnv('az', args)`: a result
with exit code 0, a result with a non-zero exit code (carrying `stderr`), or
a thrown error. -/
inductive FetchOutcome where
  | ok
  | errCode (stderr : String)
  | thrown (message : String)
deriving DecidableEq

/-- Oracle for the external effects of one `registerAKSCluster` call.
`fetchWritesFile` says whether the `az` subprocess left the temporary
kubeconfig file behind (it may do so regardless of its exit status);
`mkdirFails` / `writeFails` model exceptions thrown by `fs.mkdirSync` /
`fs.writeFileSync`, which the outer `catch` handles.  Reading the temporary
file, the credential rewrite, the merge and the serialization are pure and
total, so they introduce no further control paths. -/
structure RegEnv where
  fetch : FetchOutcome
  fetchWritesFile : Bool
  mkdirFails : Option String
  writeFails : Option String
  clusterName : String
  kubeconfigPath : String
deriving DecidableEq

/-- The `{success, message}` result of `registerAKSCluster`. -/
structure RegResult where
  success : Bool
  message : String
deriving DecidableEq

/-- `registerAKSCluster` reduced to its result and the fate of the temporary
kubeconfig file: the returned Boolean is `true` iff the temporary file still
exists when the call returns.  The `fetch` failure branches return from
inside the inner `try`/`catch` without any cleanup; the `existsSync` guard
returns with no file present; later exceptions reach the outer `catch`,
which unlinks the file, as does the success path. -/
def registerAKSCluster (env : RegEnv) : RegResult × Bool :=
  match env.fetch with
  | .thrown m =>
    (⟨false, "Failed to get credentials: " ++ (if m = emptyStr then "Unknown error" else m)⟩,
     env.fetchWritesFile)
  | .errCode s =>
    (⟨false, "Failed to get credentials: " ++ (if s = emptyStr then "Unknown error" else s)⟩,
     env.fetchWritesFile)
  | .ok =>
    if !env.fetchWritesFile then
      (⟨false, "Failed to create temporary kubeconfig file"⟩, false)
    else
      match env.mkdirFails with
      | some m => (⟨false, if m = emptyStr then "Unknown error occurred" else m⟩, false)
      | none =>
        match env.writeFails with
        | some m => (⟨false, if m = emptyStr then "Unknown error occurred" else m⟩, false)
        | none =>
          (⟨true, "Cluster " ++ squote ++ env.clusterName ++ squote ++
              " registered successfully. Kubeconfig written to " ++ env.kubeconfigPath⟩,
           false)

/-- Whether the credential fetch step failed (non-zero exit or throw). -/
def fetchFailed (env : RegEnv) : Bool :=
  match env.fetch with
  | .ok => false
  | _ => true

-- ===== Lemmas about the orchestrator =====

/-- The result entries one group contributes. -/
def groupBlock (register : RegCall → RegOutcome)
    (g : String × List ImportSelection) : List ImportResult :=
  match g.2 with
  | [] => []
  | first :: _ =>
    let clusterName := (keyParts g.1).1
    match register (groupCall g.1 first) with
    | .ok _ => g.2.map (okResult clusterName)
    | .fail m => g.2.map (fun it => failResult clusterName it m)
    | .thrown m => g.2.map (fun it => thrownResult clusterName it m)

/-- The registration calls one group contributes (none for the unreachable
empty group). -/
def groupCallsOf (g : String × List ImportSelection) : List RegCall :=
  match g.2 with
  | [] => []
  | first :: _ => [groupCall g.1 first]

theorem processGroup_eq (register : RegCall → RegOutcome) (acc : ImportOutcome)
    (g : String × List ImportSelection) :
    processGroup register acc g =
      ⟨acc.results ++ groupBlock register g, acc.calls ++ groupCallsOf g⟩ := by
  cases acc with
  | mk rs cs =>
    match hg : g.2 with
    | [] => simp [processGroup, groupBlock, groupCallsOf, hg]
    | first :: rest =>
      cases hr : register (groupCall g.1 first) with
      | ok m => simp [processGroup, groupBlock, groupCallsOf, hg, hr]
      | fail m => simp [processGroup, groupBlock, groupCallsOf, hg, hr]
      | thrown m => simp [processGroup, groupBlock, groupCallsOf, hg, hr]

theorem foldl_processGroup_eq (register : RegCall → RegOutcome)
    (gs : List (String × List ImportSelection)) :
    ∀ acc : ImportOutcome,
      gs.foldl (processGroup register) acc =
        ⟨acc.results ++ gs.flatMap (groupBlock register),
         acc.calls ++ gs.flatMap groupCallsOf⟩ := by
  induction gs with
  | nil => intro acc; cases acc; simp
  | cons g gs ih =>
    intro acc
    simp only [List.foldl_cons, processGroup_eq, ih, List.flatMap_cons, List.append_assoc]

theorem handleImport_results (namespaces : List ImportSelection)
    (register : RegCall → RegOutcome) :
    (handleImport namespaces register).results =
      (buildClusterMap (namespaces.filter (fun it => it.selected))).flatMap
        (groupBlock register) := by
  unfold handleImport
  by_cases h : (namespaces.filter (fun it => it.selected)).isEmpty
  · rw [List.isEmpty_iff] at h
    simp [h, buildClusterMap]
  · rw [if_neg (by simpa using h), foldl_processGroup_eq]
    simp

theorem handleImport_calls (namespaces : List ImportSelection)
    (register : RegCall → RegOutcome) :
    (handleImport namespaces register).calls =
      (buildClusterMap (namespaces.filter (fun it => it.selected))).flatMap
        groupCallsOf := by
  unfold handleImport
  by_cases h : (namespaces.filter (fun it => it.selected)).isEmpty
  · rw [List.isEmpty_iff] at h
    simp [h, buildClusterMap]
  · rw [if_neg (by simpa using h), foldl_processGroup_eq]
    simp

/-- Total number of items across the groups. -/
def groupSizeSum (m : List (String × List ImportSelection)) : Nat :=
  (m.map (fun g => g.2.length)).sum

theorem addToClusterMap_sizeSum (m : List (String × List ImportSelection))
    (key : String) (item : ImportSelection) :
    groupSizeSum (addToClusterMap m key item) = groupSizeSum m + 1 := by
  induction m with
  | nil => simp [addToClusterMap, groupSizeSum]
  | cons g rest ih =>
    match g with
    | (k, its) =>
      by_cases h : k = key
      · simp [addToClusterMap, h, groupSizeSum]
        ring
      · simp [addToClusterMap, h, groupSizeSum] at ih ⊢
        rw [ih]
        ring

theorem buildClusterMap_sizeSum (items : List ImportSelection) :
    groupSizeSum (buildClusterMap items) = items.length := by
  suffices h : ∀ m : List (String × List ImportSelection),
      groupSizeSum (items.foldl (fun m it => addToClusterMap m (clusterKeyOf it.ns) it) m) =
        groupSizeSum m + items.length by
    simpa [groupSizeSum] using h []
  induction items with
  | nil => intro m; simp
  | cons it its ih =>
    intro m
    simp only [List.foldl_cons, ih, addToClusterMap_sizeSum, List.length_cons]
    ring

theorem groupBlock_length (register : RegCall → RegOutcome)
    (g : String × List ImportSelection) :
    (groupBlock register g).length = g.2.length := by
  match hg : g.2 with
  | [] => simp [groupBlock, hg]
  | first :: rest =>
    cases hr : register (groupCall g.1 first) with
    | ok m => simp [groupBlock, hg, hr]
    | fail m => simp [groupBlock, hg, hr]
    | thrown m => simp [groupBlock, hg, hr]

theorem handleImport_results_length (namespaces : List ImportSelection)
    (register : RegCall → RegOutcome) :
    (handleImport namespaces register).results.length =
      (namespaces.filter (fun it => it.selected)).length := by
  rw [handleImport_results, List.length_flatMap]
  calc ((buildClusterMap (namespaces.filter (fun it => it.selected))).map
          (fun g => (groupBlock register g).length)).sum
      = ((buildClusterMap (namespaces.filter (fun it => it.selected))).map
          (fun g => g.2.length)).sum := by
        congr 1
        exact List.map_congr_left (fun g _ => groupBlock_length register g)
    _ = (namespaces.filter (fun it => it.selected)).length := by
        rw [← groupSizeSum, buildClusterMap_sizeSum]

theorem jsSplit_ne_nil (sep : Char) (s : List Char) : jsSplit sep s ≠ [] := by
  cases s with
  | nil => simp [jsSplit]
  | cons c rest =>
    cases h : jsSplit sep rest with
    | nil => simp [jsSplit, h]
    | cons w ws =>
      by_cases hc : c = sep <;> simp [jsSplit, h, hc]

theorem jsSplit_no_sep (sep : Char) (zs : List Char) (h : sep ∉ zs) :
    jsSplit sep zs = [zs] := by
  induction zs with
  | nil => rfl
  | cons c rest ih =>
    have hc : c ≠ sep := fun he => h (he ▸ List.mem_cons_self _ _)
    have hrest : sep ∉ rest := fun hm => h (List.mem_cons_of_mem _ hm)
    simp [jsSplit, ih hrest, hc]

theorem jsSplit_append (sep : Char) (xs ys : List Char) (h : sep ∉ xs) :
    jsSplit sep (xs ++ sep :: ys) = xs :: jsSplit sep ys := by
  induction xs with
  | nil =>
    simp only [List.nil_append, jsSplit]
    cases hy : jsSplit sep ys with
    | nil => exact absurd hy (jsSplit_ne_nil sep ys)
    | cons w ws => simp
  | cons c rest ih =>
    have hc : c ≠ sep := fun he => h (he ▸ List.mem_cons_self _ _)
    have hrest : sep ∉ rest := fun hm => h (List.mem_cons_of_mem _ hm)
    simp only [List.cons_append, jsSplit, List.append_eq]
    rw [ih hrest]
    simp [hc]

/-- The joined grouping key of a triple. -/
def joinTriple (t : String × String × String) : String :=
  t.1 ++ pipeStr ++ t.2.1 ++ pipeStr ++ t.2.2

theorem clusterKeyOf_eq_joinTriple (n : ManagedNamespace) :
    clusterKeyOf n = joinTriple (tripleOf n) := rfl

/-- Separator-freedom of all three components of a triple. -/
def tripleFree (t : String × String × String) : Prop :=
  pipeFree t.1 ∧ pipeFree t.2.1 ∧ pipeFree t.2.2

instance (t : String × String × String) : Decidable (tripleFree t) := by
  unfold tripleFree; infer_instance

theorem keyParts_joinTriple (t : String × String × String) (h : tripleFree t) :
    keyParts (joinTriple t) = t := by
  obtain ⟨h1, h2, h3⟩ := h
  obtain ⟨c, r, s⟩ := t
  have hdata : (joinTriple (c, r, s)).data = c.data ++ '|' :: (r.data ++ '|' :: s.data) := by
    simp [joinTriple, pipeStr, String.data_append]
  unfold keyParts
  rw [hdata, jsSplit_append _ _ _ h1, jsSplit_append _ _ _ h2, jsSplit_no_sep _ _ h3]
  rfl

theorem tripleFree_of_tripleKeysOk (n : ManagedNamespace) (h : tripleKeysOk n) :
    tripleFree (tripleOf n) := h

theorem addToClusterMap_keys (m : List (String × List ImportSelection))
    (key : String) (item : ImportSelection) :
    (addToClusterMap m key item).map Prod.fst =
      if key ∈ m.map Prod.fst then m.map Prod.fst else m.map Prod.fst ++ [key] := by
  induction m with
  | nil => simp [addToClusterMap]
  | cons g rest ih =>
    match g with
    | (k, its) =>
      by_cases h : k = key
      · simp [addToClusterMap, h]
      · have hne : key ≠ k := fun he => h he.symm
        simp only [addToClusterMap, if_neg h, List.map_cons, ih]
        by_cases hm : key ∈ rest.map Prod.fst
        · simp [hm, hne]
        · simp [hm, hne]

theorem buildClusterMap_keys (items : List ImportSelection) :
    (buildClusterMap items).map Prod.fst =
      dedupFO (items.map (fun it => clusterKeyOf it.ns)) := by
  suffices h : ∀ m : List (String × List ImportSelection),
      (items.foldl (fun m it => addToClusterMap m (clusterKeyOf it.ns) it) m).map Prod.fst =
        (items.map (fun it => clusterKeyOf it.ns)).foldl
          (fun acc a => if a ∈ acc then acc else acc ++ [a]) (m.map Prod.fst) by
    simpa [dedupFO] using h []
  induction items with
  | nil => intro m; rfl
  | cons it its ih =>
    intro m
    simp only [List.foldl_cons, List.map_cons, ih, addToClusterMap_keys]

theorem buildClusterMap_groups_ne_nil (items : List ImportSelection) :
    ∀ g ∈ buildClusterMap items, g.2 ≠ [] := by
  suffices h : ∀ m : List (String × List ImportSelection), (∀ g ∈ m, g.2 ≠ []) →
      ∀ g ∈ items.foldl (fun m it => addToClusterMap m (clusterKeyOf it.ns) it) m, g.2 ≠ [] by
    exact h [] (by simp)
  have hstep : ∀ (m : List (String × List ImportSelection)) (key : String)
      (item : ImportSelection), (∀ g ∈ m, g.2 ≠ []) →
      ∀ g ∈ addToClusterMap m key item, g.2 ≠ [] := by
    intro m key item hm
    induction m with
    | nil => simp [addToClusterMap]
    | cons p rest ih =>
      match p with
      | (k, its) =>
        by_cases h : k = key
        · intro g hg
          simp only [addToClusterMap, if_pos h] at hg
          cases List.mem_cons.mp hg with
          | inl he => simp [he]
          | inr ht => exact hm g (List.mem_cons_of_mem _ ht)
        · intro g hg
          simp only [addToClusterMap, if_neg h] at hg
          cases List.mem_cons.mp hg with
          | inl he => exact he ▸ hm (k, its) (List.mem_cons_self _ _)
          | inr ht =>
            exact ih (fun q hq => hm q (List.mem_cons_of_mem _ hq)) g ht
  induction items with
  | nil => intro m hm; exact hm
  | cons it its ih =>
    intro m hm
    simp only [List.foldl_cons]
    exact ih _ (hstep m _ it hm)

theorem mem_dedupFO_aux {α : Type} [DecidableEq α] (a : α) (l : List α) :
    ∀ acc : List α,
      a ∈ l.foldl (fun acc a => if a ∈ acc then acc else acc ++ [a]) acc →
        a ∈ acc ∨ a ∈ l := by
  induction l with
  | nil => intro acc hacc; exact Or.inl hacc
  | cons b bs ih =>
    intro acc hacc
    simp only [List.foldl_cons] at hacc
    by_cases hb : b ∈ acc
    · rw [if_pos hb] at hacc
      cases ih acc hacc with
      | inl h1 => exact Or.inl h1
      | inr h2 => exact Or.inr (List.mem_cons_of_mem _ h2)
    · rw [if_neg hb] at hacc
      cases ih _ hacc with
      | inl h1 =>
        cases List.mem_append.mp h1 with
        | inl h2 => exact Or.inl h2
        | inr h3 =>
          rw [List.mem_singleton] at h3
          exact Or.inr (h3 ▸ List.mem_cons_self _ _)
      | inr h2 => exact Or.inr (List.mem_cons_of_mem _ h2)

theorem mem_dedupFO {α : Type} [DecidableEq α] (l : List α) (a : α)
    (h : a ∈ dedupFO l) : a ∈ l := by
  cases mem_dedupFO_aux a l [] (by simpa [dedupFO] using h) with
  | inl hf => exact absurd hf (List.not_mem_nil a)
  | inr ht => exact ht

theorem dedupFO_map_aux {α β : Type} [DecidableEq α] [DecidableEq β]
    (f : α → β) (g : β → α) (l : List α) :
    ∀ acc : List α, (∀ a ∈ l, g (f a) = a) → (∀ a ∈ acc, g (f a) = a) →
      (l.map f).foldl (fun acc a => if a ∈ acc then acc else acc ++ [a]) (acc.map f) =
        (l.foldl (fun acc a => if a ∈ acc then acc else acc ++ [a]) acc).map f := by
  induction l with
  | nil => intro acc _ _; rfl
  | cons a as ih =>
    intro acc hl hacc
    have ha : g (f a) = a := hl a (List.mem_cons_self _ _)
    have has : ∀ x ∈ as, g (f x) = x := fun x hx => hl x (List.mem_cons_of_mem _ hx)
    have hmem : f a ∈ acc.map f ↔ a ∈ acc := by
      constructor
      · intro hm
        obtain ⟨b, hb, hfb⟩ := List.mem_map.mp hm
        have hgb := hacc b hb
        rw [hfb, ha] at hgb
        exact hgb ▸ hb
      · intro hm; exact List.mem_map.mpr ⟨a, hm, rfl⟩
    simp only [List.map_cons, List.foldl_cons]
    by_cases hm : a ∈ acc
    · rw [if_pos (hmem.mpr hm), if_pos hm]
      exact ih acc has hacc
    · rw [if_neg (fun hx => hm (hmem.mp hx)), if_neg hm]
      have hemap : acc.map f ++ [f a] = (acc ++ [a]).map f := by simp
      rw [hemap]
      refine ih (acc ++ [a]) has ?_
      intro x hx
      cases List.mem_append.mp hx with
      | inl h1 => exact hacc x h1
      | inr h2 =>
        rw [List.mem_singleton] at h2
        exact h2 ▸ ha

theorem dedupFO_map {α β : Type} [DecidableEq α] [DecidableEq β]
    (f : α → β) (g : β → α) (l : List α) (hret : ∀ a ∈ l, g (f a) = a) :
    dedupFO (l.map f) = (dedupFO l).map f := by
  simpa [dedupFO] using dedupFO_map_aux f g l [] hret (by simp)

-- ===== Claims about the merge =====

def emptyKubeConfig : KubeConfig := {}

/-- The parsed existing document as `mergeKubeconfig` computes it (`{}` for
an empty or unparseable existing string). -/
def parsedExisting (e : ExistingYaml) : KubeConfig :=
  match e with
  | .empty => {}
  | .malformed => {}
  | .doc c => c

/-- Claim C1 (amended): for a parseable, non-empty existing document and any
parseable incoming document, `mergeKubeconfig` produces exactly the document
described by the spec: each array merged by name (replace in place, else
append; absent target arrays start empty) and `current-context` taken from
the incoming document when it defines one, else from the existing one.  (For
an empty existing document the source returns the incoming document
verbatim instead.) -/
theorem mergeKubeconfig_c1_merge_by_name (a b : KubeConfig)
    (ha : isEmptyConfig a = false) :
    mergeKubeconfig (ExistingYaml.doc a) (IncomingYaml.doc b) = specMergeDocs a b := by
  unfold mergeKubeconfig specMergeDocs
  simp only [ha, Bool.false_eq_true, if_false, mergeRecords_eq_foldl_replaceOrAppend]

def c1IncomingDoc : KubeConfig := { currentContext := some ("ctx") }

/-- Claim C1, counterexample to the unrestricted statement: the empty
document is parseable, and merging any incoming document into it returns the
incoming document verbatim — here the incoming document has no `clusters`
array at all, while the claim's described result would contain an empty
target array for each of the three keys. -/
theorem mergeKubeconfig_c1_counterexample :
    mergeKubeconfig (ExistingYaml.doc emptyKubeConfig) (IncomingYaml.doc c1IncomingDoc) ≠
      specMergeDocs emptyKubeConfig c1IncomingDoc := by decide

def c1ExistingScenario : KubeConfig :=
  { clusters := some [⟨"A", [("server", "s1")]⟩],
    currentContext := some ("old") }

def c1IncomingScenario : KubeConfig :=
  { clusters := some [⟨"A", [("server", "s2")]⟩, ⟨"B", [("server", "s3")]⟩],
    currentContext := some ("ctxB") }

/-- Claim C1, witness: the spec's own scenario — existing cluster `A`,
incoming clusters `A` (new server) and `B`; the merged result has exactly
those two clusters with `A` fully replaced, and the incoming
current-context. -/
theorem mergeKubeconfig_c1_witness :
    isEmptyConfig c1ExistingScenario = false ∧
    mergeKubeconfig (ExistingYaml.doc c1ExistingScenario) (IncomingYaml.doc c1IncomingScenario) =
      specMergeDocs c1ExistingScenario c1IncomingScenario ∧
    (mergeKubeconfig (ExistingYaml.doc c1ExistingScenario)
        (IncomingYaml.doc c1IncomingScenario)).clusters =
      some [⟨"A", [("server", "s2")]⟩, ⟨"B", [("server", "s3")]⟩] ∧
    (mergeKubeconfig (ExistingYaml.doc c1ExistingScenario)
        (IncomingYaml.doc c1IncomingScenario)).currentContext = some ("ctxB") :=
  ⟨by decide, mergeKubeconfig_c1_merge_by_name _ _ (by decide), by decide, by decide⟩

/-- Claim C5 (amended): merging the same incoming document twice is
idempotent for every incoming document, provided only that the existing
document is non-empty.  (For an empty existing document the first merge
returns the incoming document verbatim, which need not be a merge fixed
point: remerging initializes the three arrays.) -/
theorem mergeKubeconfig_c5_idempotent (a b : KubeConfig)
    (ha : isEmptyConfig a = false) :
    mergeKubeconfig (ExistingYaml.doc (mergeKubeconfig (ExistingYaml.doc a) (IncomingYaml.doc b)))
        (IncomingYaml.doc b) =
      mergeKubeconfig (ExistingYaml.doc a) (IncomingYaml.doc b) := by
  have hcl := mergeRecords_idem (a.clusters.getD []) (b.clusters.getD [])
  have hct := mergeRecords_idem (a.contexts.getD []) (b.contexts.getD [])
  have hus := mergeRecords_idem (a.users.getD []) (b.users.getD [])
  unfold mergeKubeconfig
  simp only [ha, Bool.false_eq_true, if_false]
  by_cases hcc : definesCurrentContext b
  · simp [isEmptyConfig, hcc, hcl, hct, hus]
  · simp [isEmptyConfig, hcc, hcl, hct, hus]

def c5IncomingDoc : KubeConfig := { currentContext := some ("ctx") }

/-- Claim C5, counterexample to the unrestricted statement: with an empty
(parseable) existing document, the first merge returns the incoming document
verbatim; remerging the same incoming document into that result adds the
three (empty) initialized arrays, so the results differ. -/
theorem mergeKubeconfig_c5_counterexample :
    mergeKubeconfig
        (ExistingYaml.doc (mergeKubeconfig (ExistingYaml.doc emptyKubeConfig)
          (IncomingYaml.doc c5IncomingDoc)))
        (IncomingYaml.doc c5IncomingDoc) ≠
      mergeKubeconfig (ExistingYaml.doc emptyKubeConfig) (IncomingYaml.doc c5IncomingDoc) := by
  decide

def c5ExistingDoc : KubeConfig :=
  { clusters := some [⟨"A", [("server", "s1")]⟩], currentContext := some ("old") }

def c5NewDoc : KubeConfig :=
  { clusters := some [⟨"A", [("server", "s2")]⟩, ⟨"B", [("server", "s3")]⟩],
    contexts := some [⟨"A", []⟩],
    users := some [⟨"uA", []⟩],
    currentContext := some ("ctxB") }

/-- An incoming document whose `clusters` array carries two records with the
same name `A`. -/
def c5DupIncoming : KubeConfig :=
  { clusters := some [⟨"A", [("server", "s2")]⟩, ⟨"A", [("server", "s3")]⟩,
      ⟨"B", [("server", "s4")]⟩],
    currentContext := some ("ctxB") }

/-- Claim C5, witness at a concrete non-empty existing document and an
incoming document with a duplicated cluster name — idempotence needs no
name-uniqueness of the incoming document. -/
theorem mergeKubeconfig_c5_witness :
    isEmptyConfig c5ExistingDoc = false ∧
    ¬ (namesOf (c5DupIncoming.clusters.getD [])).Nodup ∧
    mergeKubeconfig
        (ExistingYaml.doc (mergeKubeconfig (ExistingYaml.doc c5ExistingDoc)
          (IncomingYaml.doc c5DupIncoming)))
        (IncomingYaml.doc c5DupIncoming) =
      mergeKubeconfig (ExistingYaml.doc c5ExistingDoc) (IncomingYaml.doc c5DupIncoming) :=
  ⟨by decide, by decide, mergeKubeconfig_c5_idempotent _ _ (by decide)⟩

/-- Claim C6 (confirmed): if the three arrays of both input documents are
name-unique, so are the arrays of the merged document. -/
theorem mergeKubeconfig_c6_unique (a b : KubeConfig)
    (ha : docNamesUnique a) (hb : docNamesUnique b) :
    docNamesUnique (mergeKubeconfig (ExistingYaml.doc a) (IncomingYaml.doc b)) := by
  unfold mergeKubeconfig
  by_cases he : isEmptyConfig a
  · simpa [he] using hb
  · simp only [he, Bool.false_eq_true, if_false]
    refine ⟨?_, ?_, ?_⟩
    · simpa [mergeRecords_eq_foldl_replaceOrAppend] using
        nodup_namesOf_foldl (b.clusters.getD []) (a.clusters.getD []) ha.1
    · simpa [mergeRecords_eq_foldl_replaceOrAppend] using
        nodup_namesOf_foldl (b.contexts.getD []) (a.contexts.getD []) ha.2.1
    · simpa [mergeRecords_eq_foldl_replaceOrAppend] using
        nodup_namesOf_foldl (b.users.getD []) (a.users.getD []) ha.2.2

/-- Claim C6, witness at concrete name-unique documents with an overlapping
cluster name. -/
theorem mergeKubeconfig_c6_witness :
    docNamesUnique c5ExistingDoc ∧ docNamesUnique c5NewDoc ∧
    docNamesUnique (mergeKubeconfig (ExistingYaml.doc c5ExistingDoc)
      (IncomingYaml.doc c5NewDoc)) :=
  ⟨by decide, by decide, mergeKubeconfig_c6_unique _ _ (by decide) (by decide)⟩

/-- Claim C10 (confirmed): when the incoming text fails to parse,
`mergeKubeconfig` returns the existing document — the parsed one, or the
empty document when the existing string was empty or unparseable — with no
array touched and `current-context` unchanged. -/
theorem mergeKubeconfig_c10_malformed_incoming (e : ExistingYaml) :
    mergeKubeconfig e IncomingYaml.malformed = parsedExisting e := by
  cases e <;> rfl

-- ===== Claims about the credential rewriters =====

/-- Claim C7 (confirmed): on an input string that fails to parse as YAML,
both rewriters return the original string unchanged (and, being total
functions of the parse outcome, never throw). -/
theorem rewriters_c7_malformed_returns_original (raw : String) (pf : OsPlatform)
    (isDev : Bool) (resourcesPath envPATH : String) (fe : FrontendEnv) :
    addAzKubeloginToKubeconfig (KubeYamlText.malformed raw) pf isDev resourcesPath envPATH =
        RewriteResult.original raw ∧
      addAzKubeloginToKubeconfigFrontend (KubeYamlText.malformed raw) fe =
        RewriteResult.original raw :=
  ⟨rfl, rfl⟩

/-- Claim C2 (amended): both rewriters rewrite exactly the user records with
a `user` sub-object, each installing a single `exec` descriptor
(`client.authentication.k8s.io/v1beta1`, `provideClusterInfo: false`,
args `[helper, --server-id, GUID]`; env `[PATH, AZ_CLI_PATH]` in the
main-process rewriter and `[PATH]` in the frontend one).  The main-process
rewriter deletes the six legacy auth fields; the frontend rewriter leaves
them unchanged. -/
theorem rewriters_c2_exec_install (pf : OsPlatform) (isDev : Bool)
    (resourcesPath envPATH raw : String) (cfg : UsersConfig) (us : List KubeUser)
    (fe : FrontendEnv) (hus : cfg.users = some us) (hfe : fe.pathsOk = true) :
    addAzKubeloginToKubeconfig (KubeYamlText.doc raw cfg) pf isDev resourcesPath envPATH =
        RewriteResult.rewritten { cfg with users := some (us.map
          (rewriteUser pf (getExecutablePaths pf isDev resourcesPath) envPATH)) } ∧
      addAzKubeloginToKubeconfigFrontend (KubeYamlText.doc raw cfg) fe =
        RewriteResult.rewritten { cfg with users := some (us.map (rewriteUserFrontend fe)) } ∧
      (∀ u : KubeUser, u.user = none →
        rewriteUser pf (getExecutablePaths pf isDev resourcesPath) envPATH u = u ∧
        rewriteUserFrontend fe u = u) ∧
      (∀ (u : KubeUser) (a : UserAuth), u.user = some a →
        (rewriteUser pf (getExecutablePaths pf isDev resourcesPath) envPATH u).name = u.name ∧
        (rewriteUser pf (getExecutablePaths pf isDev resourcesPath) envPATH u).user =
          some ({ authProvider := none, token := none,
                  clientCertificate := none, clientCertificateData := none,
                  clientKey := none, clientKeyData := none,
                  exec := some (mainExecBlock pf (getExecutablePaths pf isDev resourcesPath) envPATH),
                  extra := a.extra }) ∧
        (rewriteUserFrontend fe u).user =
          some { a with exec := some (frontendExecBlock fe) }) := by
  refine ⟨?_, ?_, ?_, ?_⟩
  · simp [addAzKubeloginToKubeconfig, hus]
  · simp [addAzKubeloginToKubeconfigFrontend, hus, hfe]
  · intro u hu
    constructor
    · unfold rewriteUser; rw [hu]
    · unfold rewriteUserFrontend; rw [hu]
  · intro u a hu
    refine ⟨?_, ?_, ?_⟩
    · unfold rewriteUser; rw [hu]
    · unfold rewriteUser; rw [hu]
    · unfold rewriteUserFrontend; rw [hu]

def c2Raw : String := "raw"

def c2User : KubeUser := ⟨"u1", some { token := some ("tok") }⟩

def c2Cfg : UsersConfig := { users := some [c2User] }

def c2Env : FrontendEnv :=
  { pathsOk := true, pythonPath := "py", kubeloginPath := "kl",
    externalToolsBinPath := "tb", azCliBinPath := "ab",
    platform := OsPlatform.linux, envPATH := "P" }

/-- The frontend rewrite of `c2User`: the `exec` block is installed while the
legacy `token` survives. -/
def c2FrontRewrittenAuth : UserAuth :=
  { token := some ("tok"), exec := some (frontendExecBlock c2Env) }

/-- Claim C2, counterexample: the frontend rewriter rewrites a user that
carried a legacy `token`, and the rewritten record still carries that
`token` — the six legacy fields are not deleted on this implementation. -/
theorem rewriters_c2_counterexample :
    addAzKubeloginToKubeconfigFrontend (KubeYamlText.doc c2Raw c2Cfg) c2Env =
        RewriteResult.rewritten { c2Cfg with
          users := some [⟨"u1", some c2FrontRewrittenAuth⟩] } ∧
      (rewriteUserFrontend c2Env c2User).user.map (fun a => a.token) =
        some (some ("tok")) := by
  constructor
  · decide
  · decide

def c2MainAuth : UserAuth :=
  { authProvider := some ("azure"), token := some ("tok2"),
    clientCertificate := some ("cc"), clientCertificateData := some ("ccd"),
    clientKey := some ("ck"), clientKeyData := some ("ckd"),
    extra := [("keep", "me")] }

def c2MainUser : KubeUser := ⟨"u2", some c2MainAuth⟩

def c2MainPaths : ExecutablePaths := getExecutablePaths OsPlatform.linux false ("res")

/-- The main-process rewrite of `c2MainUser`: all six legacy fields cleared,
the `exec` block installed, the remaining payload kept. -/
def c2MainRewrittenAuth : UserAuth :=
  { authProvider := none, token := none,
    clientCertificate := none, clientCertificateData := none,
    clientKey := none, clientKeyData := none,
    exec := some (mainExecBlock OsPlatform.linux c2MainPaths ("P")),
    extra := [("keep", "me")] }

def c2MainCfg : UsersConfig :=
  { users := some [c2MainUser, ⟨"plain", none⟩] }

def c2MainRewrittenUsers : List KubeUser :=
  [c2MainUser, ⟨"plain", none⟩].map (rewriteUser OsPlatform.linux c2MainPaths ("P"))

/-- Claim C2, witness: the amended theorem applied at a concrete document
with one rewritable user (all six legacy fields populated) and one record
without a `user` sub-object, on both implementations. -/
theorem rewriters_c2_witness :
    c2MainCfg.users = some [c2MainUser, ⟨"plain", none⟩] ∧ c2Env.pathsOk = true ∧
    addAzKubeloginToKubeconfig (KubeYamlText.doc c2Raw c2MainCfg) OsPlatform.linux false
        ("res") ("P") =
      RewriteResult.rewritten { c2MainCfg with users := some c2MainRewrittenUsers } ∧
    (rewriteUser OsPlatform.linux c2MainPaths ("P") c2MainUser).user =
      some c2MainRewrittenAuth :=
  ⟨rfl, rfl,
    (rewriters_c2_exec_install OsPlatform.linux false ("res") ("P") c2Raw c2MainCfg
      [c2MainUser, ⟨"plain", none⟩] c2Env rfl rfl).1,
    ((rewriters_c2_exec_install OsPlatform.linux false ("res") ("P") c2Raw c2MainCfg
      [c2MainUser, ⟨"plain", none⟩] c2Env rfl rfl).2.2.2 c2MainUser _ rfl).2.1⟩

-- ===== Claims about the import orchestrator =====

theorem triple_of_groupCall (key : String) (first : ImportSelection) :
    ((groupCall key first).clusterName, (groupCall key first).resourceGroup,
      (groupCall key first).subscriptionId) = keyParts key := rfl

theorem flatMap_groupCalls_triple (gs : List (String × List ImportSelection))
    (hne : ∀ g ∈ gs, g.2 ≠ []) :
    (gs.flatMap groupCallsOf).map
        (fun c => (c.clusterName, c.resourceGroup, c.subscriptionId)) =
      gs.map (fun g => keyParts g.1) := by
  induction gs with
  | nil => rfl
  | cons g gs ih =>
    have hg := hne g (List.mem_cons_self _ _)
    match hg2 : g.2 with
    | [] => exact absurd hg2 hg
    | first :: rest =>
      simp only [List.flatMap_cons, List.map_append, List.map_cons,
        ih (fun q hq => hne q (List.mem_cons_of_mem _ hq))]
      simp [groupCallsOf, hg2, triple_of_groupCall]

/-- Claim C3 (amended): provided no selected namespace's cluster name,
resource group or subscription id contains the grouping separator `|`, the
orchestrator's registration-call trace, read as (clusterName, resourceGroup,
subscriptionId) triples, is exactly the list of distinct triples of the
selected namespaces in first-occurrence order — one sequential call per
distinct triple.  (The source keys groups by the `|`-joined string, so
separator-containing fields can collapse distinct triples into one call.) -/
theorem handleImport_c3_one_call_per_triple (namespaces : List ImportSelection)
    (register : RegCall → RegOutcome)
    (h : ∀ it ∈ namespaces.filter (fun it => it.selected), tripleKeysOk it.ns) :
    (handleImport namespaces register).calls.map
        (fun c => (c.clusterName, c.resourceGroup, c.subscriptionId)) =
      dedupFO ((namespaces.filter (fun it => it.selected)).map
        (fun it => tripleOf it.ns)) := by
  rw [handleImport_calls,
    flatMap_groupCalls_triple _ (buildClusterMap_groups_ne_nil _)]
  have h1 : (buildClusterMap (namespaces.filter (fun it => it.selected))).map
      (fun g => keyParts g.1) =
      ((buildClusterMap (namespaces.filter (fun it => it.selected))).map
        Prod.fst).map keyParts :=
    (List.map_map keyParts Prod.fst _).symm
  rw [h1, buildClusterMap_keys]
  have hkeys : (namespaces.filter (fun it => it.selected)).map
      (fun it => clusterKeyOf it.ns) =
      ((namespaces.filter (fun it => it.selected)).map
        (fun it => tripleOf it.ns)).map joinTriple :=
    (List.map_map joinTriple (fun (it : ImportSelection) => tripleOf it.ns) _).symm
  rw [hkeys, dedupFO_map joinTriple keyParts _
    (fun t ht => by
      obtain ⟨it, hit, hteq⟩ := List.mem_map.mp ht
      exact hteq ▸ keyParts_joinTriple _ (tripleFree_of_tripleKeysOk _ (h it hit))),
    List.map_map]
  have h2 : ∀ t ∈ dedupFO ((namespaces.filter (fun it => it.selected)).map
      (fun it => tripleOf it.ns)), (keyParts ∘ joinTriple) t = id t := by
    intro t ht
    have ht' := mem_dedupFO _ _ ht
    obtain ⟨it, hit, hteq⟩ := List.mem_map.mp ht'
    exact hteq ▸ keyParts_joinTriple _ (tripleFree_of_tripleKeysOk _ (h it hit))
  exact (List.map_congr_left h2).trans (List.map_id _)

def c3Pipe1 : ImportSelection := ⟨⟨"n1", "a|b", "c", "d"⟩, "p1", true, false⟩

def c3Pipe2 : ImportSelection := ⟨⟨"n2", "a", "b", "c|d"⟩, "p2", true, false⟩

def c3AlwaysOk : RegCall → RegOutcome := fun _ => RegOutcome.ok (emptyStr)

/-- Claim C3, counterexample to the unrestricted statement: two selected
namespaces with distinct (clusterName, resourceGroup, subscriptionId)
triples whose `|`-joined keys coincide are grouped together, so only one
registration call is issued for two distinct triples. -/
theorem handleImport_c3_counterexample :
    (handleImport [c3Pipe1, c3Pipe2] c3AlwaysOk).calls.length = 1 ∧
      c3Pipe1.ns ≠ c3Pipe2.ns ∧
      (dedupFO ([c3Pipe1, c3Pipe2].map (fun it => tripleOf it.ns))).length = 2 := by
  refine ⟨by decide, by decide, by decide⟩

def c3Batch : List ImportSelection :=
  [⟨⟨"n1", "c1", "rg", "sub"⟩, "p1", true, false⟩,
   ⟨⟨"n2", "c2", "rg", "sub"⟩, "p2", true, false⟩,
   ⟨⟨"n3", "c2", "rg", "sub"⟩, "p3", true, false⟩,
   ⟨⟨"n4", "c9", "rg", "sub"⟩, "p4", false, false⟩]

/-- Claim C3, witness: three selected namespaces over two clusters (plus one
deselected row) produce exactly two registration calls, in group order. -/
theorem handleImport_c3_witness :
    (∀ it ∈ c3Batch.filter (fun it => it.selected), tripleKeysOk it.ns) ∧
      (handleImport c3Batch c3AlwaysOk).calls.map
          (fun c => (c.clusterName, c.resourceGroup, c.subscriptionId)) =
        [("c1", "rg", "sub"), ("c2", "rg", "sub")] ∧
      (handleImport c3Batch c3AlwaysOk).calls.length = 2 :=
  ⟨by decide,
    (handleImport_c3_one_call_per_triple c3Batch c3AlwaysOk (by decide)).trans (by decide),
    by decide⟩

/-- Claim C4 (confirmed): the orchestrator emits exactly one result per
selected namespace; when a group's registration returns a failure, every
namespace of that group gets a failure entry carrying the registration
error message, and when a group's registration succeeds, every namespace of
that group gets its success entry — so one group's failure never suppresses
the processing of the others. -/
theorem handleImport_c4_partial_failure (namespaces : List ImportSelection)
    (register : RegCall → RegOutcome) :
    (handleImport namespaces register).results.length =
        (namespaces.filter (fun it => it.selected)).length ∧
      ∀ g ∈ buildClusterMap (namespaces.filter (fun it => it.selected)),
        ∀ first rest, g.2 = first :: rest →
          (∀ m, register (groupCall g.1 first) = RegOutcome.fail m →
            ∀ it ∈ g.2,
              failResult (keyParts g.1).1 it m ∈ (handleImport namespaces register).results) ∧
          (∀ m, register (groupCall g.1 first) = RegOutcome.ok m →
            ∀ it ∈ g.2,
              okResult (keyParts g.1).1 it ∈ (handleImport namespaces register).results) := by
  refine ⟨handleImport_results_length namespaces register, ?_⟩
  intro g hg first rest hg2
  constructor
  · intro m hm it hit
    rw [handleImport_results]
    refine List.mem_flatMap.mpr ⟨g, hg, ?_⟩
    have : groupBlock register g = g.2.map (fun it => failResult (keyParts g.1).1 it m) := by
      unfold groupBlock
      rw [hg2]
      simp only [← hg2, hm]
    rw [this]
    exact List.mem_map.mpr ⟨it, hit, rfl⟩
  · intro m hm it hit
    rw [handleImport_results]
    refine List.mem_flatMap.mpr ⟨g, hg, ?_⟩
    have : groupBlock register g = g.2.map (okResult (keyParts g.1).1) := by
      unfold groupBlock
      rw [hg2]
      simp only [← hg2, hm]
    rw [this]
    exact List.mem_map.mpr ⟨it, hit, rfl⟩

def c4Ns1 : ImportSelection := ⟨⟨"m1", "k1", "rg", "sub"⟩, "q1", true, false⟩

def c4Ns2 : ImportSelection := ⟨⟨"m2", "k2", "rg", "sub"⟩, "q2", true, false⟩

def c4Ns3 : ImportSelection := ⟨⟨"m3", "k2", "rg", "sub"⟩, "q3", true, false⟩

def c4Batch : List ImportSelection := [c4Ns1, c4Ns2, c4Ns3]

def c4Register : RegCall → RegOutcome :=
  fun c => if c.clusterName = "k1" then RegOutcome.ok (emptyStr) else RegOutcome.fail ("boom")

/-- Claim C4, witness: three selected namespaces across two clusters where
the second cluster's registration fails — three result entries, one success
and two failures carrying the registration message. -/
theorem handleImport_c4_witness :
    (handleImport c4Batch c4Register).results.length = 3 ∧
      failResult (keyParts (clusterKeyOf c4Ns2.ns)).1 c4Ns2 ("boom") ∈
        (handleImport c4Batch c4Register).results ∧
      failResult (keyParts (clusterKeyOf c4Ns2.ns)).1 c4Ns3 ("boom") ∈
        (handleImport c4Batch c4Register).results ∧
      okResult (keyParts (clusterKeyOf c4Ns1.ns)).1 c4Ns1 ∈
        (handleImport c4Batch c4Register).results ∧
      ((handleImport c4Batch c4Register).results.filter (fun r => r.success)).length = 1 ∧
      ((handleImport c4Batch c4Register).results.filter (fun r => !r.success)).length = 2 := by
  refine ⟨(handleImport_c4_partial_failure c4Batch c4Register).1.trans (by decide),
    ?_, ?_, ?_, by decide, by decide⟩
  · exact ((handleImport_c4_partial_failure c4Batch c4Register).2
      (clusterKeyOf c4Ns2.ns, [c4Ns2, c4Ns3]) (by decide) c4Ns2 [c4Ns3] rfl).1
      ("boom") (by decide) c4Ns2 (by decide)
  · exact ((handleImport_c4_partial_failure c4Batch c4Register).2
      (clusterKeyOf c4Ns2.ns, [c4Ns2, c4Ns3]) (by decide) c4Ns2 [c4Ns3] rfl).1
      ("boom") (by decide) c4Ns3 (by decide)
  · exact ((handleImport_c4_partial_failure c4Batch c4Register).2
      (clusterKeyOf c4Ns1.ns, [c4Ns1]) (by decide) c4Ns1 [] rfl).2
      (emptyStr) (by decide) c4Ns1 (by decide)

-- ===== Claim about cluster registration =====

/-- Claim C8 (amended): the temporary kubeconfig file survives the call
exactly when the credential fetch failed (non-zero exit or thrown error)
after the `az` subprocess had created the file; the success path and every
failure path reached after the existence check delete the file (for the
missing-file failure there is nothing to delete). -/
theorem registerAKSCluster_c8_cleanup (env : RegEnv) :
    (registerAKSCluster env).2 = true ↔
      (fetchFailed env = true ∧ env.fetchWritesFile = true) := by
  obtain ⟨fetch, writes, mkf, wrf, cn, kp⟩ := env
  cases fetch with
  | thrown m => simp [registerAKSCluster, fetchFailed]
  | errCode s => simp [registerAKSCluster, fetchFailed]
  | ok =>
    cases writes with
    | false => simp [registerAKSCluster, fetchFailed]
    | true =>
      cases mkf with
      | some m => simp [registerAKSCluster, fetchFailed]
      | none =>
        cases wrf with
        | some m => simp [registerAKSCluster, fetchFailed]
        | none => simp [registerAKSCluster, fetchFailed]

def c8Env : RegEnv :=
  { fetch := FetchOutcome.errCode ("boom"), fetchWritesFile := true,
    mkdirFails := none, writeFails := none,
    clusterName := "c", kubeconfigPath := "k" }

/-- Claim C8, counterexample: when the credential fetch exits non-zero after
the subprocess created the temporary file, the call returns a failure result
with the file still in place — a failure path without cleanup. -/
theorem registerAKSCluster_c8_counterexample :
    (registerAKSCluster c8Env).1.success = false ∧
      (registerAKSCluster c8Env).2 = true := by
  refine ⟨by decide, by decide⟩

-- ===== Claim about discovery =====

/-- Membership characterization of the discovery fold. -/
theorem discoverStep_foldl_mem (merged : List String) (subId : String)
    (details : NsCandidate → Option (List (String × String))) :
    ∀ (data : List NsCandidate) (acc : List ImportSelection) (sel : ImportSelection),
      sel ∈ data.foldl (discoverStep merged subId details) acc →
      sel ∈ acc ∨
        (sel.ns.clusterName ∉ merged ∧
          ∃ cand, cand ∈ data ∧ ∃ ls, details cand = some ls ∧
            (jsLookup ls projectIdLabel).getD emptyStr ≠ emptyStr ∧
            jsLookup ls projectManagedByLabel = some projectManagedByAksDesktop ∧
            sel = { ns := ⟨cand.name, cand.clusterName, cand.resourceGroup, subId⟩,
                    projectName := (jsLookup ls projectIdLabel).getD emptyStr,
                    selected := true, clusterMerged := false }) := by
  intro data
  induction data with
  | nil => intro acc sel h; exact Or.inl h
  | cons cand rest ih =>
    intro acc sel h
    simp only [List.foldl_cons] at h
    rcases ih (discoverStep merged subId details acc cand) sel h with hacc | hrest
    · unfold discoverStep at hacc
      cases hd : details cand with
      | none =>
        simp only [hd] at hacc
        exact Or.inl hacc
      | some ls =>
        simp only [hd] at hacc
        by_cases hc : ((jsLookup ls projectIdLabel).getD emptyStr != emptyStr &&
            (jsLookup ls projectManagedByLabel == some projectManagedByAksDesktop)) = true
        · rw [if_pos hc] at hacc
          cases hq : (!merged.contains cand.clusterName) with
          | false =>
            rw [hq] at hacc
            simp only [Bool.false_eq_true, if_false] at hacc
            exact Or.inl hacc
          | true =>
            rw [hq] at hacc
            simp only [if_true] at hacc
            rcases List.mem_append.mp hacc with hin | hone
            · exact Or.inl hin
            · rw [List.mem_singleton] at hone
              have hnm : cand.clusterName ∉ merged := by simpa using hq
              have hand := (Bool.and_eq_true _ _).mp hc
              refine Or.inr ⟨?_, cand, List.mem_cons_self _ _, ls, hd, ?_, ?_, hone⟩
              · rw [hone]; exact hnm
              · simpa using hand.1
              · simpa using hand.2
        · rw [if_neg hc] at hacc
          exact Or.inl hacc
    · obtain ⟨hcl, c, hc, rest2⟩ := hrest
      exact Or.inr ⟨hcl, c, List.mem_cons_of_mem _ hc, rest2⟩

/-- Claim C9 (amended): every row produced by the label-checking discovery
implementation (`discoverNamespaces`) stems from a candidate whose details
carry both required labels (a truthy project-id and the exact managed-by
marker), and its cluster is not among the already-merged cluster names.
(The alternative `loadNamespaces` implementation enforces only the
managed-by filter, through its remote query, and excludes nothing.) -/
theorem discoverNamespaces_c9_filters (merged : List String) (subId : String)
    (data : List NsCandidate)
    (details : NsCandidate → Option (List (String × String))) :
    ∀ sel ∈ discoverNamespaces merged subId data details,
      sel.ns.clusterName ∉ merged ∧
        ∃ cand, cand ∈ data ∧ ∃ ls, details cand = some ls ∧
          (jsLookup ls projectIdLabel).getD emptyStr ≠ emptyStr ∧
          jsLookup ls projectManagedByLabel = some projectManagedByAksDesktop ∧
          sel = { ns := ⟨cand.name, cand.clusterName, cand.resourceGroup, subId⟩,
                  projectName := (jsLookup ls projectIdLabel).getD emptyStr,
                  selected := true, clusterMerged := false } := by
  intro sel hsel
  rcases discoverStep_foldl_mem merged subId details data [] sel hsel with h | h
  · exact absurd h (List.not_mem_nil sel)
  · exact h

def c9Merged : List String := ["mc"]

def c9Sub : String := "sub"

def c9CandOk : NsCandidate := ⟨"n1", "c1", "rg"⟩

def c9CandMergedCluster : NsCandidate := ⟨"n2", "mc", "rg"⟩

def c9CandNoLabel : NsCandidate := ⟨"n3", "c3", "rg"⟩

def c9Data : List NsCandidate := [c9CandOk, c9CandMergedCluster, c9CandNoLabel]

def c9Details : NsCandidate → Option (List (String × String)) :=
  fun c =>
    if c.name = "n1" then
      some [(projectIdLabel, "p1"), (projectManagedByLabel, projectManagedByAksDesktop)]
    else if c.name = "n2" then
      some [(projectIdLabel, "p2"), (projectManagedByLabel, projectManagedByAksDesktop)]
    else
      some [(projectManagedByLabel, projectManagedByAksDesktop)]

def c9Sel1 : ImportSelection := ⟨⟨"n1", "c1", "rg", "sub"⟩, "p1", true, false⟩

/-- Claim C9, witness: of three candidates — fully labelled, already-merged
cluster, and missing project-id — `discoverNamespaces` keeps exactly the
first, and the amended theorem applies to it. -/
theorem discoverNamespaces_c9_witness :
    discoverNamespaces c9Merged c9Sub c9Data c9Details = [c9Sel1] ∧
      c9Sel1.ns.clusterName ∉ c9Merged ∧
      (∃ cand, cand ∈ c9Data ∧ ∃ ls, c9Details cand = some ls ∧
        (jsLookup ls projectIdLabel).getD emptyStr ≠ emptyStr ∧
        jsLookup ls projectManagedByLabel = some projectManagedByAksDesktop ∧
        c9Sel1 = { ns := ⟨cand.name, cand.clusterName, cand.resourceGroup, c9Sub⟩,
                   projectName := (jsLookup ls projectIdLabel).getD emptyStr,
                   selected := true, clusterMerged := false }) :=
  ⟨by decide,
    (discoverNamespaces_c9_filters c9Merged c9Sub c9Data c9Details c9Sel1 (by decide)).1,
    (discoverNamespaces_c9_filters c9Merged c9Sub c9Data c9Details c9Sel1 (by decide)).2⟩

def c9BadRecord : GraphRecord :=
  ⟨"n1", "x/managedClusters/mc/y", "rg", "sub",
    [(projectManagedByLabel, projectManagedByAksDesktop)]⟩

def c9BadSelection : ImportSelection := ⟨⟨"n1", "mc", "rg", "sub"⟩, emptyStr, true, false⟩

/-- Claim C9, counterexample: the `loadNamespaces` implementation cited by
the claim includes a record that has no project-id label at all and whose
cluster (`mc`) is already present in the modelled active configuration — it
neither requires both labels nor excludes merged clusters. -/
theorem loadNamespaces_c9_counterexample :
    loadNamespaces [c9BadRecord] = [c9BadSelection] ∧
      jsLookup c9BadRecord.labels projectIdLabel = none ∧
      c9BadSelection.ns.clusterName ∈ c9Merged := by
  refine ⟨by decide, by decide, by decide⟩
